import Mathlib

/-!
Verification development for the Gondor N-dimensional array engine
(package `ndarray`, file `internal/ndarray/ndarray.go`).

The engine stores `float64` values but performs no floating-point
arithmetic on them: elements are only stored (`New`, `Set`) and read back
(`Get`).  We therefore model the element type by `ℚ`, in which every
literal appearing in the spec (`0.0`, `1.0`, `7.0`, `42.0`) is exact.

Go `int` coordinates, extents and strides are modelled by `Int` (bounds
checks in the source compare against `0`, so negative values must be
representable).  Go slices become Lean lists.  Fallible operations return
`Except NDError _`; Go's in-place mutation of the receiver becomes the
returned array, so "state unchanged on error" is the absence of a
returned array.
-/

namespace Gondor

/-- Error values produced by the engine, one constructor per `fmt.Errorf`
site in the source, carrying the data interpolated into the message. -/
inductive NDError where
  /-- "shape must have at least one dimension" -/
  | emptyShape : NDError
  /-- "shape has too many dimensions (max 32)" -/
  | tooManyDims : NDError
  /-- "dimension size must be positive, got %d" -/
  | nonPositiveDim (d : Int) : NDError
  /-- "number of indices (%d) does not match array dimensions (%d)" -/
  | rankMismatch (given expected : Nat) : NDError
  /-- "index %d out of bounds for axis %d with size %d" (Get) /
      "index %d out of bounds for axis %d (size %d)" (Set) -/
  | indexOutOfBounds (index : Int) (axis : Nat) (size : Int) : NDError
  /-- "flat index %d out of bounds for array of size %d" (Get only) -/
  | flatOutOfBounds (flat : Int) (size : Nat) : NDError
deriving DecidableEq, Repr

/-- `InvalidShape` in the spec's error taxonomy covers the three shape
validation failures of `New`. -/
def NDError.isInvalidShape : NDError → Bool
  | .emptyShape => true
  | .tooManyDims => true
  | .nonPositiveDim _ => true
  | _ => false

/-- The `NDArray` struct: flat buffer, shape, strides. -/
structure NDArray where
  data : List ℚ
  shape : List Int
  strides : List Int
deriving DecidableEq, Repr

/-- Go's `int` on a 64-bit target is a two's-complement 64-bit integer:
arithmetic wraps modulo `2^64` into `[-2^63, 2^63)`. -/
def wrap64 (x : Int) : Int := (x + 2 ^ 63) % 2 ^ 64 - 2 ^ 63

/-- The size/validation loop of `New`:
`totalSize := 1; for _, dim := range shape { if dim <= 0 { error }; totalSize *= dim }`,
with the multiplication wrapping as Go `int` arithmetic does. -/
def totalSizeLoop : List Int → Int → Except NDError Int
  | [], acc => .ok acc
  | d :: ds, acc =>
      if d ≤ 0 then .error (.nonPositiveDim d)
      else totalSizeLoop ds (wrap64 (acc * d))

/-- The running `stride` of `New`'s stride loop after it has processed a
suffix of the shape (rightmost axis first): `stride := 1` and then
`stride *= shape[i]`, each multiplication wrapping as Go `int`
arithmetic does. -/
def wprod : List Int → Int
  | [] => 1
  | d :: ds => wrap64 (wprod ds * d)

/-- The stride loop of `New`:
`stride := 1; for i := len(shape)-1; i >= 0; i-- { strides[i] = stride; stride *= shape[i] }`,
so `strides[i]` is the wrapped running product of the extents after
axis `i`. -/
def computeStrides : List Int → List Int
  | [] => []
  | _ :: ds => wprod ds :: computeStrides ds

/-- Modelled from the spec (§3): the exact row-major derivation of the
strides, `strides[i] =` the true (unwrapped) product of the extents
after axis `i`, so that `strides[rank-1] = 1` and
`strides[i] = strides[i+1] * shape[i+1]`.  `computeStrides` agrees with
it whenever no running product overflows int64
(`computeStrides_eq_rowMajor` below). -/
def rowMajorStrides : List Int → List Int
  | [] => []
  | _ :: ds => ds.prod :: rowMajorStrides ds

/-- `New(shape ...int) (*NDArray, error)`.  Go's
`make([]float64, totalSize)` panics when `totalSize` is negative (or
exceeds the runtime's allocation limit); the model returns an empty
buffer for a negative wrapped size instead — no theorem below depends
on that case, as each either assumes the size product does not overflow
or evaluates the model at a shape whose wrapped size is non-negative. -/
def New (shape : List Int) : Except NDError NDArray :=
  if shape.length = 0 then .error .emptyShape
  else if shape.length > 32 then .error .tooManyDims
  else
    match totalSizeLoop shape 1 with
    | .error e => .error e
    | .ok totalSize =>
        .ok { data := List.replicate totalSize.toNat 0
              shape := shape
              strides := computeStrides shape }

/-- The shared index loop of `Get` and `Set`: per-axis bounds check and
flat-offset accumulation
`for i, index := range indices { if index < 0 || index >= a.shape[i] { error }; flat += index * a.strides[i] }`.
The rank check performed before this loop guarantees the three lists have
equal length, so the fall-through case is never reached from `Get`/`Set`
on an array whose `strides` has the length of its `shape`.  In Go the
accumulation wraps as int64; on any Go-realizable array satisfying the
invariant (row-major strides, `len(data) = product(shape) < 2^63`) every
term and every partial sum lies in `[0, len(data))` (see
`get_set_offset_in_bounds`), so no wrap can occur there and the
unbounded accumulation below is exact. -/
def offsetLoop : List Int → List Int → List Int → Nat → Int → Except NDError Int
  | index :: is, dim :: dims, st :: sts, i, acc =>
      if index < 0 ∨ index ≥ dim then .error (.indexOutOfBounds index i dim)
      else offsetLoop is dims sts (i + 1) (acc + index * st)
  | _, _, _, _, acc => .ok acc

/-- `Get(indices ...int) (float64, error)`: rank check, bounds/offset
loop, defensive flat-index check, then `data[flatIndex]`. -/
def NDArray.Get (a : NDArray) (indices : List Int) : Except NDError ℚ :=
  if indices.length ≠ a.shape.length then
    .error (.rankMismatch indices.length a.shape.length)
  else
    match offsetLoop indices a.shape a.strides 0 0 with
    | .error e => .error e
    | .ok flatIndex =>
        if flatIndex < 0 ∨ flatIndex ≥ (a.data.length : Int) then
          .error (.flatOutOfBounds flatIndex a.data.length)
        else .ok (a.data.getD flatIndex.toNat 0)

/-- `Set(value float64, indices ...int) error`: rank check, bounds/offset
loop, then the unguarded write `a.data[offset] = value`.  The Go write
panics outside `[0, len(data))`; `List.set` is a no-op there instead, and
the two agree on every offset the loop can produce for an array whose
strides are the row-major derivation of its shape (theorem
`get_set_offset_in_bounds` below). -/
def NDArray.Set (a : NDArray) (value : ℚ) (indices : List Int) :
    Except NDError NDArray :=
  if indices.length ≠ a.shape.length then
    .error (.rankMismatch indices.length a.shape.length)
  else
    match offsetLoop indices a.shape a.strides 0 0 with
    | .error e => .error e
    | .ok offset => .ok { a with data := a.data.set offset.toNat value }

/-- `Shape() []int`. -/
def NDArray.Shape (a : NDArray) : List Int := a.shape

/-- `Reshape(newShape ...int) error`: the source body is
`// TODO: Implement reshape logic` followed by `return nil` — it touches
nothing and reports success. -/
def NDArray.Reshape (a : NDArray) (newShape : List Int) :
    Except NDError NDArray :=
  .ok a

/-- `Zeros(shape ...int)` delegates to `New`. -/
def Zeros (shape : List Int) : Except NDError NDArray := New shape

/-- `Ones(shape ...int) (*NDArray, error)`: the source body is
`// TODO: Allocate and fill with 1.0` followed by `return nil, nil` —
both results are nil, modelled as a pair of `none`s. -/
def Ones (shape : List Int) : Option NDArray × Option NDError :=
  (none, none)

/-- `Full(value float64, shape ...int) (*NDArray, error)`: the source
body is `// TODO: Allocate and fill with given value` followed by
`return nil, nil`. -/
def Full (value : ℚ) (shape : List Int) : Option NDArray × Option NDError :=
  (none, none)

/-- `Size() int` returns `len(a.data)`. -/
def NDArray.Size (a : NDArray) : Nat := a.data.length

/-- A shape the spec calls valid: rank between 1 and 32, every extent
positive. -/
def validShape (s : List Int) : Prop :=
  1 ≤ s.length ∧ s.length ≤ 32 ∧ ∀ d ∈ s, 0 < d

instance : DecidablePred validShape := fun s => by
  unfold validShape; infer_instance

/-- A coordinate tuple is in bounds for a shape: same length and
`0 ≤ idx[i] < shape[i]` on every axis. -/
def inBoundsIdx : List Int → List Int → Bool
  | [], [] => true
  | i :: is, d :: ds => decide (0 ≤ i) && decide (i < d) && inBoundsIdx is ds
  | _, _ => false

/-- The representation invariant of §3 of the spec: the buffer length is
the product of the extents and the strides are the row-major derivation
of the shape. -/
def Invariant (a : NDArray) : Prop :=
  a.shape.prod = (a.data.length : Int) ∧ a.strides = rowMajorStrides a.shape

/-- The flat offset `Σ indices[i] * strides[i]` that the index loop
accumulates on the success path. -/
def flatOffset (indices strides : List Int) : Int :=
  (List.zipWith (fun i s => i * s) indices strides).sum

theorem wrap64_eq_self {x : Int} (h1 : -(2 ^ 63) ≤ x) (h2 : x < 2 ^ 63) :
    wrap64 x = x := by
  unfold wrap64
  rw [Int.emod_eq_of_lt (by omega) (by omega)]
  omega

theorem prod_pos_of_pos {ds : List Int} (h : ∀ d ∈ ds, 0 < d) :
    0 < ds.prod := by
  induction ds with
  | nil => simp
  | cons d ds ih =>
      have hd := h d (by simp)
      have := ih (fun x hx => h x (by simp [hx]))
      simp only [List.prod_cons]
      positivity

theorem totalSizeLoop_ok (s : List Int) (hpos : ∀ d ∈ s, 0 < d) :
    ∀ acc : Int, 0 < acc → acc * s.prod < 2 ^ 63 →
      totalSizeLoop s acc = .ok (acc * s.prod) := by
  induction s with
  | nil => intro acc _ _; simp [totalSizeLoop]
  | cons d ds ih =>
      intro acc hacc hlt
      have hd : 0 < d := hpos d (by simp)
      have hds : ∀ x ∈ ds, 0 < x := fun x hx => hpos x (by simp [hx])
      have hP : 0 < ds.prod := prod_pos_of_pos hds
      have hads : 0 < acc * d := by positivity
      have hle : acc * d ≤ acc * d * ds.prod :=
        le_mul_of_one_le_right (le_of_lt hads) (by omega)
      have hlt' : acc * d * ds.prod < 2 ^ 63 := by
        have heq : acc * d * ds.prod = acc * (d :: ds).prod := by
          rw [List.prod_cons]; ring
        rw [heq]; exact hlt
      simp only [totalSizeLoop, if_neg (by omega : ¬ d ≤ 0)]
      rw [wrap64_eq_self (by omega) (by omega)]
      rw [ih hds (acc * d) hads hlt']
      simp [List.prod_cons, mul_assoc]

theorem wprod_eq_prod {ds : List Int} (hpos : ∀ d ∈ ds, 0 < d)
    (hlt : ds.prod < 2 ^ 63) : wprod ds = ds.prod := by
  induction ds with
  | nil => rfl
  | cons d ds ih =>
      have hd : 0 < d := hpos d (by simp)
      have hds : ∀ x ∈ ds, 0 < x := fun x hx => hpos x (by simp [hx])
      have hP : 0 < ds.prod := prod_pos_of_pos hds
      have hprod : (d :: ds).prod = d * ds.prod := List.prod_cons
      have hle : ds.prod ≤ d * ds.prod :=
        le_mul_of_one_le_left (le_of_lt hP) (by omega)
      rw [hprod] at hlt
      have ih' := ih hds (by omega)
      have hPd : 0 < d * ds.prod := by positivity
      unfold wprod
      rw [ih', hprod, mul_comm ds.prod d]
      exact wrap64_eq_self (by linarith) hlt

theorem computeStrides_eq_rowMajor {s : List Int} (hpos : ∀ d ∈ s, 0 < d)
    (hlt : s.prod < 2 ^ 63) : computeStrides s = rowMajorStrides s := by
  induction s with
  | nil => rfl
  | cons d ds ih =>
      have hd : 0 < d := hpos d (by simp)
      have hds : ∀ x ∈ ds, 0 < x := fun x hx => hpos x (by simp [hx])
      have hP : 0 < ds.prod := prod_pos_of_pos hds
      have hle : ds.prod ≤ d * ds.prod :=
        le_mul_of_one_le_left (le_of_lt hP) (by omega)
      rw [List.prod_cons] at hlt
      simp [computeStrides, rowMajorStrides, wprod_eq_prod hds (by omega),
        ih hds (by omega)]

theorem totalSizeLoop_err (s : List Int) (hbad : ∃ d ∈ s, d ≤ 0) :
    ∀ acc : Int, ∃ d, d ∈ s ∧ d ≤ 0 ∧
      totalSizeLoop s acc = .error (.nonPositiveDim d) := by
  induction s with
  | nil => simp at hbad
  | cons d ds ih =>
      intro acc
      by_cases hd : d ≤ 0
      · exact ⟨d, by simp, hd, by simp [totalSizeLoop, hd]⟩
      · have hbad' : ∃ x ∈ ds, x ≤ 0 := by
          obtain ⟨x, hx, hxle⟩ := hbad
          rcases List.mem_cons.mp hx with rfl | hx'
          · omega
          · exact ⟨x, hx', hxle⟩
        obtain ⟨x, hx, hxle, heq⟩ := ih hbad' (wrap64 (acc * d))
        exact ⟨x, by simp [hx], hxle, by simp [totalSizeLoop, hd, heq]⟩

theorem New_ok (s : List Int) (hs : validShape s) (hnof : s.prod < 2 ^ 63) :
    New s = .ok { data := List.replicate s.prod.toNat 0
                  shape := s
                  strides := rowMajorStrides s } := by
  obtain ⟨h1, h2, h3⟩ := hs
  simp only [New, if_neg (by omega : ¬ s.length = 0),
    if_neg (by omega : ¬ s.length > 32)]
  rw [totalSizeLoop_ok s h3 1 one_pos (by simpa using hnof)]
  simp [computeStrides_eq_rowMajor h3 hnof]

theorem rowMajorStrides_length (s : List Int) :
    (rowMajorStrides s).length = s.length := by
  induction s with
  | nil => rfl
  | cons d ds ih => simp [rowMajorStrides, ih]

theorem inBoundsIdx_length {is ds : List Int}
    (h : inBoundsIdx is ds = true) : is.length = ds.length := by
  induction is generalizing ds with
  | nil => cases ds with
      | nil => rfl
      | cons d ds => simp [inBoundsIdx] at h
  | cons i is ih =>
      cases ds with
      | nil => simp [inBoundsIdx] at h
      | cons d ds =>
          simp only [inBoundsIdx, Bool.and_eq_true] at h
          simp [ih h.2]

theorem inBoundsIdx_shape_pos {is ds : List Int}
    (h : inBoundsIdx is ds = true) : ∀ d ∈ ds, 0 < d := by
  induction is generalizing ds with
  | nil => cases ds with
      | nil => simp
      | cons d ds => simp [inBoundsIdx] at h
  | cons i is ih =>
      cases ds with
      | nil => simp [inBoundsIdx] at h
      | cons d ds =>
          simp only [inBoundsIdx, Bool.and_eq_true, decide_eq_true_eq] at h
          intro x hx
          rcases List.mem_cons.mp hx with rfl | hx'
          · omega
          · exact ih h.2 x hx'

theorem offsetLoop_ok {is ds ss : List Int}
    (hin : inBoundsIdx is ds = true) (hss : ss.length = ds.length) :
    ∀ (i : Nat) (acc : Int),
      offsetLoop is ds ss i acc = .ok (acc + flatOffset is ss) := by
  induction is generalizing ds ss with
  | nil =>
      intro i acc
      simp [offsetLoop, flatOffset]
  | cons x xs ih =>
      intro i acc
      cases ds with
      | nil => simp [inBoundsIdx] at hin
      | cons d ds =>
          cases ss with
          | nil => simp at hss
          | cons s ss =>
              simp only [inBoundsIdx, Bool.and_eq_true, decide_eq_true_eq] at hin
              obtain ⟨⟨hx0, hxd⟩, hrest⟩ := hin
              simp only [offsetLoop, if_neg (by omega : ¬ (x < 0 ∨ x ≥ d))]
              rw [ih hrest (by simpa using hss) (i + 1) (acc + x * s)]
              simp [flatOffset]
              ring

theorem flatOffset_bounds {is ds : List Int}
    (hin : inBoundsIdx is ds = true) :
    0 ≤ flatOffset is (rowMajorStrides ds) ∧
      flatOffset is (rowMajorStrides ds) < ds.prod := by
  induction is generalizing ds with
  | nil =>
      cases ds with
      | nil => simp [flatOffset, rowMajorStrides]
      | cons d ds => simp [inBoundsIdx] at hin
  | cons x xs ih =>
      cases ds with
      | nil => simp [inBoundsIdx] at hin
      | cons d ds =>
          simp only [inBoundsIdx, Bool.and_eq_true, decide_eq_true_eq] at hin
          obtain ⟨⟨hx0, hxd⟩, hrest⟩ := hin
          obtain ⟨ih0, ih1⟩ := ih hrest
          have hP : 0 < ds.prod := prod_pos_of_pos (inBoundsIdx_shape_pos hrest)
          simp only [rowMajorStrides, flatOffset, List.zipWith_cons_cons,
            List.sum_cons, List.prod_cons]
          constructor
          · have : 0 ≤ x * ds.prod := mul_nonneg hx0 (le_of_lt hP)
            have := ih0
            simp only [flatOffset] at this
            omega
          · have h1 : x * ds.prod ≤ (d - 1) * ds.prod :=
              mul_le_mul_of_nonneg_right (by omega) (le_of_lt hP)
            have h2 : (List.zipWith (fun i s => i * s) xs (rowMajorStrides ds)).sum
                < ds.prod := ih1
            nlinarith [h1, h2]

theorem offsetLoop_err {is ds ss : List Int}
    (hlen : is.length = ds.length) (hss : ss.length = ds.length)
    (hbad : ∃ k, k < is.length ∧
      (is.getD k 0 < 0 ∨ is.getD k 0 ≥ ds.getD k 0)) :
    ∀ (i : Nat) (acc : Int), ∃ j, j < is.length ∧
      (is.getD j 0 < 0 ∨ is.getD j 0 ≥ ds.getD j 0) ∧
      offsetLoop is ds ss i acc =
        .error (.indexOutOfBounds (is.getD j 0) (i + j) (ds.getD j 0)) := by
  induction is generalizing ds ss with
  | nil => simp at hbad
  | cons x xs ih =>
      intro i acc
      cases ds with
      | nil => simp at hlen
      | cons d ds =>
          cases ss with
          | nil => simp at hss
          | cons s ss =>
              by_cases hviol : x < 0 ∨ x ≥ d
              · exact ⟨0, by simp, by simpa using hviol,
                  by simp [offsetLoop, hviol]⟩
              · have hbad' : ∃ k, k < xs.length ∧
                    (xs.getD k 0 < 0 ∨ xs.getD k 0 ≥ ds.getD k 0) := by
                  obtain ⟨k, hk, hkv⟩ := hbad
                  cases k with
                  | zero => simp at hkv; omega
                  | succ k =>
                      exact ⟨k, by simpa using hk, by simpa using hkv⟩
                obtain ⟨j, hj, hjv, heq⟩ :=
                  ih (by simpa using hlen) (by simpa using hss) hbad'
                    (i + 1) (acc + x * s)
                refine ⟨j + 1, by simpa using hj, by simpa using hjv, ?_⟩
                simp only [offsetLoop, if_neg hviol]
                rw [heq]
                simp only [List.getD_cons_succ]
                congr 2
                omega

theorem getD_replicate (n k : Nat) (x : ℚ) :
    (List.replicate n x).getD k x = x := by
  induction n generalizing k with
  | zero => simp [List.getD]
  | succ n ih =>
      cases k with
      | zero => simp [List.replicate]
      | succ k => simpa [List.replicate, List.getD_cons_succ] using ih k

theorem getD_set_self (l : List ℚ) (n : Nat) (x d : ℚ) (h : n < l.length) :
    (l.set n x).getD n d = x := by
  induction l generalizing n with
  | nil => simp at h
  | cons a l ih =>
      cases n with
      | zero => simp [List.set]
      | succ n => simpa [List.set, List.getD_cons_succ] using ih n (by simpa using h)

theorem New_ok_inversion {s : List Int} {a : NDArray}
    (hnof : s.prod < 2 ^ 63) (h : New s = .ok a) :
    validShape s ∧
      a = { data := List.replicate s.prod.toNat 0
            shape := s
            strides := rowMajorStrides s } := by
  by_cases h0 : s.length = 0
  · simp [New, h0] at h
  by_cases h32 : s.length > 32
  · simp [New, h0, h32] at h
  by_cases hpos : ∀ d ∈ s, 0 < d
  · have hvs : validShape s := ⟨by omega, by omega, hpos⟩
    rw [New_ok s hvs hnof] at h
    exact ⟨hvs, (Except.ok.injEq _ _).mp h |>.symm⟩
  · push_neg at hpos
    obtain ⟨d, hd, hdle⟩ := hpos
    obtain ⟨x, _, _, heq⟩ := totalSizeLoop_err s ⟨d, hd, by omega⟩ 1
    simp [New, h0, h32, heq] at h

theorem New_invariant {s : List Int} {a : NDArray}
    (hnof : s.prod < 2 ^ 63) (h : New s = .ok a) :
    Invariant a := by
  obtain ⟨⟨_, _, hpos⟩, rfl⟩ := New_ok_inversion hnof h
  have hp : 0 < s.prod := prod_pos_of_pos hpos
  refine ⟨?_, rfl⟩
  simp [Int.toNat_of_nonneg (le_of_lt hp)]

theorem access_offset {a : NDArray} (hInv : Invariant a) {idx : List Int}
    (hin : inBoundsIdx idx a.shape = true) :
    offsetLoop idx a.shape a.strides 0 0 = .ok (flatOffset idx a.strides) ∧
      0 ≤ flatOffset idx a.strides ∧
      flatOffset idx a.strides < (a.data.length : Int) := by
  obtain ⟨hlen, hstr⟩ := hInv
  have hss : a.strides.length = a.shape.length := by
    rw [hstr]; exact rowMajorStrides_length _
  have hok := offsetLoop_ok hin hss 0 0
  have hb := flatOffset_bounds hin
  rw [← hstr] at hb
  exact ⟨by simpa using hok, hb.1, by omega⟩

theorem Get_ok_core {a : NDArray} (hInv : Invariant a) {idx : List Int}
    (hin : inBoundsIdx idx a.shape = true) :
    a.Get idx = .ok (a.data.getD (flatOffset idx a.strides).toNat 0) := by
  obtain ⟨hok, h0, hlt⟩ := access_offset hInv hin
  have hrank : idx.length = a.shape.length := inBoundsIdx_length hin
  simp only [NDArray.Get, if_neg (by omega : ¬ idx.length ≠ a.shape.length), hok]
  rw [if_neg (by omega : ¬ (flatOffset idx a.strides < 0 ∨
    flatOffset idx a.strides ≥ (a.data.length : Int)))]

theorem Set_ok_core {a : NDArray} (hInv : Invariant a) {idx : List Int}
    (hin : inBoundsIdx idx a.shape = true) (v : ℚ) :
    a.Set v idx =
      .ok { a with data := a.data.set (flatOffset idx a.strides).toNat v } := by
  obtain ⟨hok, h0, hlt⟩ := access_offset hInv hin
  have hrank : idx.length = a.shape.length := inBoundsIdx_length hin
  simp only [NDArray.Set, if_neg (by omega : ¬ idx.length ≠ a.shape.length), hok]

/-- Claim C1 as originally stated is false on the code: Go's int64 size
product wraps, so `New(1<<32, 1<<32)` succeeds with an empty buffer
(`totalSize` wraps to `0`) under shape `[2^32, 2^32]`, strides
`[2^32, 1]`.  The coordinate `[0,0]` is in bounds, yet the round trip
fails: in Go, `Set` panics writing to the empty slice; in the model the
unguarded write is a no-op and the subsequent `Get` hits the defensive
flat-index check instead of returning the stored value. -/
theorem set_get_roundtrip_counterexample :
    validShape [2 ^ 32, 2 ^ 32] ∧
    New [2 ^ 32, 2 ^ 32] = .ok ⟨[], [2 ^ 32, 2 ^ 32], [2 ^ 32, 1]⟩ ∧
    inBoundsIdx [0, 0] [2 ^ 32, 2 ^ 32] = true ∧
    ¬ ∃ a' : NDArray,
        NDArray.Set ⟨[], [2 ^ 32, 2 ^ 32], [2 ^ 32, 1]⟩ 42 [0, 0] = .ok a' ∧
        a'.Get [0, 0] = .ok 42 := by
  refine ⟨by decide, by rfl, by decide, ?_⟩
  rintro ⟨a', hset, hget⟩
  have h1 : NDArray.Set ⟨[], [2 ^ 32, 2 ^ 32], [2 ^ 32, 1]⟩ 42 [0, 0] =
      .ok ⟨[], [2 ^ 32, 2 ^ 32], [2 ^ 32, 1]⟩ := by rfl
  have ha' : a' = ⟨[], [2 ^ 32, 2 ^ 32], [2 ^ 32, 1]⟩ :=
    ((Except.ok.injEq _ _).mp (h1.symm.trans hset)).symm
  subst ha'
  have h2 : NDArray.Get (⟨[], [2 ^ 32, 2 ^ 32], [2 ^ 32, 1]⟩ : NDArray) [0, 0] =
      .error (.flatOutOfBounds 0 0) := by rfl
  rw [h2] at hget
  exact Except.noConfusion hget

/-- Claim C1 (amended): for every array successfully constructed by
`New` with a valid shape whose element-count product stays below `2^63`
(so the int64 size product cannot wrap), and every coordinate tuple of
matching rank with every coordinate in bounds (`inBoundsIdx` bundles
both), `Set v idx` succeeds and a subsequent `Get idx` returns exactly
`v`. -/
theorem set_get_roundtrip (s : List Int) (hs : validShape s)
    (hnof : s.prod < 2 ^ 63) (a : NDArray)
    (ha : New s = .ok a) (v : ℚ) (idx : List Int)
    (hin : inBoundsIdx idx s = true) :
    ∃ a' : NDArray, a.Set v idx = .ok a' ∧ a'.Get idx = .ok v := by
  have hInv := New_invariant hnof ha
  have hshape : a.shape = s := ((New_ok_inversion hnof ha).2 ▸ rfl)
  have hin' : inBoundsIdx idx a.shape = true := by rw [hshape]; exact hin
  obtain ⟨hok, h0, hlt⟩ := access_offset hInv hin'
  refine ⟨_, Set_ok_core hInv hin' v, ?_⟩
  have hInv' : Invariant { a with data := a.data.set (flatOffset idx a.strides).toNat v } := by
    obtain ⟨h1, h2⟩ := hInv
    exact ⟨by simpa using h1, h2⟩
  rw [Get_ok_core hInv' hin']
  congr 1
  exact getD_set_self _ _ _ _ (by simpa using (by omega : (flatOffset idx a.strides).toNat < a.data.length))

/-- Witness for C1 on the spec's concrete scenario: `New [2,2]`, then
`Set 42 [1,1]` followed by `Get [1,1]` returns `42`. -/
theorem set_get_roundtrip_witness :
    ∃ a' : NDArray,
      NDArray.Set ⟨List.replicate 4 0, [2, 2], [2, 1]⟩ 42 [1, 1] = .ok a' ∧
      a'.Get [1, 1] = .ok 42 :=
  set_get_roundtrip [2, 2] (by decide) (by decide)
    ⟨List.replicate 4 0, [2, 2], [2, 1]⟩ (by rfl) 42 [1, 1] (by decide)

/-- Claim C5 as originally stated is false on the code: `[2^32, 2^32]`
is a valid shape (rank 2, positive extents), but Go's wrapping int64
size product makes `New(1<<32, 1<<32)` return an array with an empty
buffer and nil error, so `Size()` is `0`, not `2^64`, and `Get(0, 0)`
errors instead of returning `0.0`. -/
theorem create_zero_filled_counterexample :
    validShape [2 ^ 32, 2 ^ 32] ∧
    New [2 ^ 32, 2 ^ 32] = .ok ⟨[], [2 ^ 32, 2 ^ 32], [2 ^ 32, 1]⟩ ∧
    (NDArray.Size ⟨[], [2 ^ 32, 2 ^ 32], [2 ^ 32, 1]⟩ : Int) ≠
      ([2 ^ 32, 2 ^ 32] : List Int).prod ∧
    NDArray.Get ⟨[], [2 ^ 32, 2 ^ 32], [2 ^ 32, 1]⟩ [0, 0] =
      .error (.flatOutOfBounds 0 0) :=
  ⟨by decide, by rfl, by decide, by rfl⟩

/-- Claim C5 (amended): for every valid shape `s` whose element-count
product stays below `2^63` (no int64 overflow in the size product),
`New s` succeeds, the resulting array's `Size` equals the product of
`s`, and `Get` at every in-bounds coordinate tuple returns `0.0`. -/
theorem create_zero_filled (s : List Int) (hs : validShape s)
    (hnof : s.prod < 2 ^ 63) :
    ∃ a : NDArray, New s = .ok a ∧ (a.Size : Int) = s.prod ∧
      ∀ idx : List Int, inBoundsIdx idx s = true → a.Get idx = .ok 0 := by
  refine ⟨_, New_ok s hs hnof, ?_, ?_⟩
  · simp [NDArray.Size,
      Int.toNat_of_nonneg (le_of_lt (prod_pos_of_pos hs.2.2))]
  · intro idx hin
    have hInv : Invariant _ := New_invariant hnof (New_ok s hs hnof)
    rw [Get_ok_core hInv hin]
    congr 1
    exact getD_replicate _ _ 0

/-- Witness for C5 at shape `[3,4]`. -/
theorem create_zero_filled_witness :
    ∃ a : NDArray, New [3, 4] = .ok a ∧ (a.Size : Int) = ([3, 4] : List Int).prod ∧
      ∀ idx : List Int, inBoundsIdx idx [3, 4] = true → a.Get idx = .ok 0 :=
  create_zero_filled [3, 4] (by decide) (by decide)

/-- Claim C6: `New` with an empty shape, rank above 32, or a
non-positive extent fails with an `InvalidShape` error and constructs no
array. -/
theorem create_invalid_shape (s : List Int)
    (hbad : s.length = 0 ∨ s.length > 32 ∨ ∃ d ∈ s, d ≤ 0) :
    ∃ e : NDError, New s = .error e ∧ e.isInvalidShape = true := by
  by_cases h0 : s.length = 0
  · exact ⟨.emptyShape, by simp [New, h0], rfl⟩
  by_cases h32 : s.length > 32
  · exact ⟨.tooManyDims, by simp [New, h0, h32], rfl⟩
  have hbad' : ∃ d ∈ s, d ≤ 0 := by
    rcases hbad with h | h | h
    · omega
    · omega
    · exact h
  obtain ⟨d, _, _, heq⟩ := totalSizeLoop_err s hbad' 1
  exact ⟨.nonPositiveDim d, by simp [New, h0, h32, heq], rfl⟩

/-- Witness for C6 at the test suite's input `New(0, 3)`. -/
theorem create_invalid_shape_witness :
    ∃ e : NDError, New [0, 3] = .error e ∧ e.isInvalidShape = true :=
  create_invalid_shape [0, 3] (by simp)

/-- Claim C9: for every array satisfying the shape/stride invariant and
every in-bounds coordinate tuple, the flat offset computed by the index
loop lies in `[0, len(data))`; consequently `Get` takes its value branch
(the defensive secondary `IndexOutOfBounds` branch is unreachable) and
`Set`'s unguarded buffer write lands in bounds. -/
theorem get_set_offset_in_bounds (a : NDArray) (hInv : Invariant a)
    (v : ℚ) (idx : List Int) (hin : inBoundsIdx idx a.shape = true) :
    ∃ o : Int,
      offsetLoop idx a.shape a.strides 0 0 = .ok o ∧
      0 ≤ o ∧ o < (a.data.length : Int) ∧ o.toNat < a.data.length ∧
      a.Get idx = .ok (a.data.getD o.toNat 0) ∧
      a.Set v idx = .ok { a with data := a.data.set o.toNat v } := by
  obtain ⟨hok, h0, hlt⟩ := access_offset hInv hin
  exact ⟨_, hok, h0, hlt, by omega, Get_ok_core hInv hin,
    Set_ok_core hInv hin v⟩

/-- Witness for C9 on the spec's concrete scenario: shape `[3,4]`,
coordinate `[2,3]`, flat offset `2*4 + 3*1 = 11 < 12`. -/
theorem get_set_offset_in_bounds_witness :
    ∃ o : Int,
      offsetLoop [2, 3] (NDArray.mk (List.replicate 12 0) [3, 4] [4, 1]).shape
        (NDArray.mk (List.replicate 12 0) [3, 4] [4, 1]).strides 0 0 = .ok o ∧
      0 ≤ o ∧
      o < ((NDArray.mk (List.replicate 12 0) [3, 4] [4, 1]).data.length : Int) ∧
      o.toNat < (NDArray.mk (List.replicate 12 0) [3, 4] [4, 1]).data.length ∧
      (NDArray.mk (List.replicate 12 0) [3, 4] [4, 1]).Get [2, 3] =
        .ok ((NDArray.mk (List.replicate 12 0) [3, 4] [4, 1]).data.getD o.toNat 0) ∧
      (NDArray.mk (List.replicate 12 0) [3, 4] [4, 1]).Set 42 [2, 3] =
        .ok { NDArray.mk (List.replicate 12 0) [3, 4] [4, 1] with
                data := (NDArray.mk (List.replicate 12 0) [3, 4] [4, 1]).data.set o.toNat 42 } :=
  get_set_offset_in_bounds ⟨List.replicate 12 0, [3, 4], [4, 1]⟩
    ⟨by decide, by decide⟩ 42 [2, 3] (by decide)

theorem rowMajorStrides_getD (s : List Int) (i : Nat) (h : i < s.length) :
    (rowMajorStrides s).getD i 0 = (s.drop (i + 1)).prod := by
  induction s generalizing i with
  | nil => simp at h
  | cons d ds ih =>
      cases i with
      | zero => simp [rowMajorStrides]
      | succ i =>
          simpa [rowMajorStrides, List.getD_cons_succ] using
            ih i (by simpa using h)

/-- Claim C7: `Get` and `Set` with a coordinate tuple of the wrong
length fail with `RankMismatch` reporting both counts, and with a
coordinate below `0` or at least `shape[axis]` fail with
`IndexOutOfBounds` reporting the offending index, axis and extent (the
first violating axis, since the loop stops there).  In the embedding an
error result carries no array, so no state is read or written on
failure.  The bounds part assumes `strides` has the length of `shape`,
which holds for every array the API constructs; on a shorter `strides`
the Go loop would panic at `a.strides[i]` rather than return. -/
theorem get_set_errors (a : NDArray) (v : ℚ) (idx : List Int) :
    (idx.length ≠ a.shape.length →
      a.Get idx = .error (.rankMismatch idx.length a.shape.length) ∧
      a.Set v idx = .error (.rankMismatch idx.length a.shape.length)) ∧
    (idx.length = a.shape.length → a.strides.length = a.shape.length →
      (∃ k, k < idx.length ∧
        (idx.getD k 0 < 0 ∨ idx.getD k 0 ≥ a.shape.getD k 0)) →
      ∃ j, j < idx.length ∧
        (idx.getD j 0 < 0 ∨ idx.getD j 0 ≥ a.shape.getD j 0) ∧
        a.Get idx =
          .error (.indexOutOfBounds (idx.getD j 0) j (a.shape.getD j 0)) ∧
        a.Set v idx =
          .error (.indexOutOfBounds (idx.getD j 0) j (a.shape.getD j 0))) := by
  constructor
  · intro hne
    exact ⟨by simp [NDArray.Get, hne], by simp [NDArray.Set, hne]⟩
  · intro hlen hss hbad
    obtain ⟨j, hj, hjv, heq⟩ :=
      @offsetLoop_err idx a.shape a.strides hlen (by omega) hbad 0 0
    simp only [Nat.zero_add] at heq
    exact ⟨j, hj, hjv,
      by simp [NDArray.Get, if_neg (by omega : ¬ idx.length ≠ a.shape.length), heq],
      by simp [NDArray.Set, if_neg (by omega : ¬ idx.length ≠ a.shape.length), heq]⟩

/-- Witness for C7: on a `[2,2]` array, `Get`/`Set` with one index
report `RankMismatch (1, 2)`, and with `[3,0]` report the out-of-bounds
index `3` on axis `0` of extent `2` (the spec's concrete scenario). -/
theorem get_set_errors_witness :
    (NDArray.Get ⟨List.replicate 4 0, [2, 2], [2, 1]⟩ [0] =
        .error (.rankMismatch 1 2) ∧
      NDArray.Set ⟨List.replicate 4 0, [2, 2], [2, 1]⟩ 42 [0] =
        .error (.rankMismatch 1 2)) ∧
    (∃ j, j < ([3, 0] : List Int).length ∧
      (([3, 0] : List Int).getD j 0 < 0 ∨
        ([3, 0] : List Int).getD j 0 ≥
          (NDArray.mk (List.replicate 4 0) [2, 2] [2, 1]).shape.getD j 0) ∧
      NDArray.Get ⟨List.replicate 4 0, [2, 2], [2, 1]⟩ [3, 0] =
        .error (.indexOutOfBounds (([3, 0] : List Int).getD j 0) j
          ((NDArray.mk (List.replicate 4 0) [2, 2] [2, 1]).shape.getD j 0)) ∧
      NDArray.Set ⟨List.replicate 4 0, [2, 2], [2, 1]⟩ 42 [3, 0] =
        .error (.indexOutOfBounds (([3, 0] : List Int).getD j 0) j
          ((NDArray.mk (List.replicate 4 0) [2, 2] [2, 1]).shape.getD j 0))) :=
  ⟨(get_set_errors ⟨List.replicate 4 0, [2, 2], [2, 1]⟩ 42 [0]).1 (by decide),
   (get_set_errors ⟨List.replicate 4 0, [2, 2], [2, 1]⟩ 42 [3, 0]).2
     (by decide) (by decide) ⟨0, by decide, by decide⟩⟩

/-- Claim C8 as originally stated is false on the code: the invariant
is not maintained for every shape the constructor accepts.  Go's
wrapping int64 arithmetic makes `New(1<<32, 1<<32)` reachably construct
an array with `product(shape) = 2^64` but an empty buffer; and at rank
3 the stride loop itself wraps: for shape `[2, 2^32, 2^32]` the
computed strides are `[0, 2^32, 1]` where the row-major derivation is
`[2^64, 2^32, 1]`. -/
theorem api_preserves_invariant_counterexample :
    New [2 ^ 32, 2 ^ 32] = .ok ⟨[], [2 ^ 32, 2 ^ 32], [2 ^ 32, 1]⟩ ∧
    ¬ Invariant ⟨[], [2 ^ 32, 2 ^ 32], [2 ^ 32, 1]⟩ ∧
    computeStrides [2, 2 ^ 32, 2 ^ 32] = [0, 2 ^ 32, 1] ∧
    rowMajorStrides [2, 2 ^ 32, 2 ^ 32] = [2 ^ 64, 2 ^ 32, 1] :=
  ⟨by rfl, fun h => absurd h.1 (by decide), by rfl, by rfl⟩

/-- Claim C8 (amended): `New` establishes the representation invariant
(`product(shape) = len(data)` and `strides = rowMajorStrides shape`)
whenever the shape's element-count product stays below `2^63` (no int64
overflow); `Set` and `Reshape` preserve the invariant for every array
satisfying it (`Get` returns no array); `rowMajorStrides` is exactly
the spec's row-major formula (`strides[rank-1] = 1` and
`strides[i] = strides[i+1] * shape[i+1]`); and the engine's stride loop
`computeStrides` agrees with it in the absence of overflow. -/
theorem api_preserves_invariant :
    (∀ (s : List Int) (a : NDArray), s.prod < 2 ^ 63 → New s = .ok a →
        Invariant a) ∧
    (∀ (a : NDArray) (v : ℚ) (idx : List Int) (a' : NDArray),
        Invariant a → a.Set v idx = .ok a' → Invariant a') ∧
    (∀ (a : NDArray) (ns : List Int) (a' : NDArray),
        Invariant a → a.Reshape ns = .ok a' → Invariant a') ∧
    (∀ s : List Int, s ≠ [] →
        (rowMajorStrides s).getD (s.length - 1) 0 = 1) ∧
    (∀ (s : List Int) (i : Nat), i + 1 < s.length →
        (rowMajorStrides s).getD i 0 =
          (rowMajorStrides s).getD (i + 1) 0 * s.getD (i + 1) 0) ∧
    (∀ s : List Int, (∀ d ∈ s, 0 < d) → s.prod < 2 ^ 63 →
        computeStrides s = rowMajorStrides s) := by
  refine ⟨fun s a hnof h => New_invariant hnof h, ?_, ?_, ?_, ?_,
    fun s h1 h2 => computeStrides_eq_rowMajor h1 h2⟩
  · intro a v idx a' hInv hset
    by_cases hne : idx.length ≠ a.shape.length
    · simp [NDArray.Set, hne] at hset
    · cases hoff : offsetLoop idx a.shape a.strides 0 0 with
      | error e => simp [NDArray.Set, hne, hoff] at hset
      | ok o =>
          simp only [NDArray.Set, if_neg hne, hoff] at hset
          obtain ⟨h1, h2⟩ := hInv
          cases hset
          exact ⟨by simpa using h1, h2⟩
  · intro a ns a' hInv hre
    simp only [NDArray.Reshape] at hre
    cases hre
    exact hInv
  · intro s hs
    have hlen : 0 < s.length := List.length_pos.mpr hs
    rw [rowMajorStrides_getD s (s.length - 1) (by omega)]
    have : s.length - 1 + 1 = s.length := by omega
    rw [this, List.drop_length]
    rfl
  · intro s i h
    rw [rowMajorStrides_getD s i (by omega),
      rowMajorStrides_getD s (i + 1) (by omega)]
    have hdrop : s.drop (i + 1) = s.get ⟨i + 1, by omega⟩ :: s.drop (i + 2) := by
      rw [List.drop_eq_getElem_cons (by omega : i + 1 < s.length)]
      rfl
    rw [hdrop, List.prod_cons, List.getD_eq_getElem s 0 (by omega : i + 1 < s.length)]
    rw [mul_comm]
    rfl

/-- Witness for C8: the invariant established by `New [2,2]`. -/
theorem api_preserves_invariant_witness :
    Invariant ⟨List.replicate 4 0, [2, 2], [2, 1]⟩ :=
  api_preserves_invariant.1 [2, 2] ⟨List.replicate 4 0, [2, 2], [2, 1]⟩
    (by decide) (by rfl)

/-- Claim C2, evaluated at a failing input: the source's `Reshape` body
is `// TODO: Implement reshape logic; return nil`.  On the array built
by `New [2,6]` (strides `[6,1]`), `Reshape [3,4]` reports success yet
leaves shape `[2,6]` and strides `[6,1]` — contradicting the claim that
`Shape()` then reflects `[3,4]` with recomputed strides. -/
theorem reshape_noop_counterexample :
    New [2, 6] = .ok ⟨List.replicate 12 0, [2, 6], [6, 1]⟩ ∧
    NDArray.Reshape ⟨List.replicate 12 0, [2, 6], [6, 1]⟩ [3, 4] =
      .ok ⟨List.replicate 12 0, [2, 6], [6, 1]⟩ ∧
    NDArray.Shape ⟨List.replicate 12 0, [2, 6], [6, 1]⟩ = [2, 6] ∧
    (⟨List.replicate 12 0, [2, 6], [6, 1]⟩ : NDArray).strides = [6, 1] :=
  ⟨rfl, rfl, rfl, rfl⟩

/-- Claim C3, evaluated at a failing input: on the array built by
`New [2,2]` (4 elements), `Reshape [3]` (3 elements) returns success —
the stubbed body never raises the `ShapeMismatch` the claim requires
(it does leave shape, size and elements unchanged, vacuously). -/
theorem reshape_mismatch_counterexample :
    New [2, 2] = .ok ⟨List.replicate 4 0, [2, 2], [2, 1]⟩ ∧
    NDArray.Reshape ⟨List.replicate 4 0, [2, 2], [2, 1]⟩ [3] =
      .ok ⟨List.replicate 4 0, [2, 2], [2, 1]⟩ :=
  ⟨rfl, rfl⟩

/-- Claim C4, evaluated at the spec's concrete scenario: the source's
`Ones` and `Full` bodies are TODO stubs returning `nil, nil`, so
`Full(7.0, [2,2])` yields no array at all, let alone one whose four
elements equal `7.0`; likewise `Ones [2,2]`. -/
theorem ones_full_stub_counterexample :
    Ones [2, 2] = (none, none) ∧ Full 7 [2, 2] = (none, none) :=
  ⟨rfl, rfl⟩

/-- Claim C10: for every argument list, `Ones` and `Full` return neither
an array nor an error — both components of the result are `nil`. -/
theorem ones_full_return_nothing (v : ℚ) (s : List Int) :
    Ones s = (none, none) ∧ Full v s = (none, none) :=
  ⟨rfl, rfl⟩

end Gondor
